import Mathlib

/-!
Verification of the address-book core of `ProjectGrupy3AddressBook.py`.

The Python classes and functions are shallowly embedded as executable Lean
definitions: `Phone`, `Email`, `Record`, `AddressBook`, `add_record`,
`delete_record_by_id`, `find_record`, the batched iterator, the birthday
validator (`datetime.strptime` with format `%Y-%m-%d`), `days_to_birthday`,
and the persistence pair `save_address_book` / `load_address_book`.
Machine integers are `Nat`/`Int`; fallible Python code (raising
`ValueError` / `StopIteration`) returns `Option`.
-/

/-- Python substring test: `leadsWith hay needle` holds when `needle` is an
initial segment of `hay` (helper for `in` on strings). -/
def leadsWith : List Char → List Char → Bool
  | _, [] => true
  | [], _ :: _ => false
  | h :: t, n :: m => h == n && leadsWith t m

/-- Python `needle in hay` on character lists: some suffix of `hay` starts
with `needle`. -/
def hasSub : List Char → List Char → Bool
  | [], needle => needle.isEmpty
  | h :: t, needle => leadsWith (h :: t) needle || hasSub t needle

/-- Python `needle in hay` for strings (substring containment). -/
def strContains (hay needle : String) : Bool :=
  hasSub hay.data needle.data

/-- Python `str.lower()` (ASCII case folding, as used by the source on
names and search terms). -/
def lowerStr (s : String) : String :=
  String.mk (s.data.map Char.toLower)

/-- First code points of the 66 contiguous runs of ten Unicode decimal
digits (category `Nd`, Unicode 14.0 as shipped with CPython 3.11): a
`str`-pattern `\d` in CPython's `re` — which `strptime` uses without
`re.ASCII` — matches exactly the characters with `b ≤ c ≤ b + 9` for one
of these bases, and such a character denotes the decimal value `c - b`. -/
def ndBases : List Nat :=
  [48, 1632, 1776, 1984, 2406, 2534, 2662, 2790, 2918, 3046, 3174, 3302,
   3430, 3558, 3664, 3792, 3872, 4160, 4240, 6112, 6160, 6470, 6608, 6784,
   6800, 6992, 7088, 7232, 7248, 42528, 43216, 43264, 43472, 43504, 43600,
   44016, 65296, 66720, 68912, 69734, 69872, 69942, 70096, 70384, 70736,
   70864, 71248, 71360, 71472, 71904, 72016, 72784, 73040, 73120, 92768,
   92864, 93008, 120782, 120792, 120802, 120812, 120822, 123200, 123632,
   125264, 130032]

/-- Unicode decimal digit: the character class matched by `\d` in the
CPython `strptime` regexes (category `Nd`, not only ASCII — Arabic-Indic
digits, for example, are matched too). -/
def isDig (c : Char) : Bool :=
  ndBases.any (fun b => b ≤ c.toNat && c.toNat ≤ b + 9)

/-- Decimal value of a Unicode decimal digit, as Python's `int()` reads
each character of a matched token (0 for non-digits). -/
def digVal (c : Char) : Nat :=
  match ndBases.find? (fun b => b ≤ c.toNat && c.toNat ≤ b + 9) with
  | some b => c.toNat - b
  | none => 0

/-- Value of a list of Unicode decimal digits (most significant first). -/
def digitsValU : List Char → Nat
  | [] => 0
  | c :: t => digVal c * 10 ^ t.length + digitsValU t

/-- Python `int(token)` on a matched group: leading whitespace (the
space that the `%d` alternative ` [1-9]` can capture) is stripped, then
the Unicode decimal digits are read positionally. -/
def intOfToken (t : List Char) : Nat :=
  digitsValU (t.dropWhile (fun c => c == ' '))

/-- ASCII digit `0`-`9`: the explicit digit characters and bracket
ranges of the `%m`/`%d` regexes are ASCII literals, unlike `\d`. -/
def isAsciiDig (c : Char) : Bool :=
  48 ≤ c.toNat && c.toNat ≤ 57

/-- The ASCII bracket class `[1-9]` (`'1'` = 49 … `'9'` = 57). -/
def isA19 (c : Char) : Bool :=
  49 ≤ c.toNat && c.toNat ≤ 57

/-- Numeric value of a list of ASCII digits (used by the claim-side
zero-padded form). -/
def digitsVal : List Char → Nat
  | [] => 0
  | c :: t => (c.toNat - 48) * 10 ^ t.length + digitsVal t

/-- The two-character alternatives `1[0-2]` and `0[1-9]` of the `%m`
regex, all ASCII (`'0'` = 48, `'1'` = 49, `'2'` = 50). -/
def month2ok (m1 m2 : Char) : Bool :=
  (m1.toNat == 49 && (48 ≤ m2.toNat && m2.toNat ≤ 50)) ||
  (m1.toNat == 48 && isA19 m2)

/-- The two-character alternatives `3[0-1]`, `[1-2]\d`, `0[1-9]` and
` [1-9]` of the `%d` regex (`'3'` = 51, `' '` = 32): only the second
character of `[1-2]\d` may be a non-ASCII decimal digit. -/
def day2ok (d1 d2 : Char) : Bool :=
  (d1.toNat == 51 && (d2.toNat == 48 || d2.toNat == 49)) ||
  ((d1.toNat == 49 || d1.toNat == 50) && isDig d2) ||
  (d1.toNat == 48 && isA19 d2) ||
  (d1.toNat == 32 && isA19 d2)

/-- Strings matched in full by the month pattern `1[0-2]|0[1-9]|[1-9]`. -/
def monthTok : List Char → Bool
  | [m1] => isA19 m1
  | [m1, m2] => month2ok m1 m2
  | _ => false

/-- Strings matched in full by the day pattern
`3[0-1]|[1-2]\d|0[1-9]|[1-9]| [1-9]`. -/
def dayTok : List Char → Bool
  | [d1] => isA19 d1
  | [d1, d2] => day2ok d1 d2
  | _ => false

/-- Month step of the backtracking match of `-%m-`: a two-character
month alternative must be followed by the literal `-`; if the `-` is
missing the engine backtracks to the one-character alternative `[1-9]`,
which then itself needs the following character to be the `-` — and that
character is a digit whenever a two-character alternative matched, so
the branches below reproduce the regex exactly.  Returns the captured
group and the remainder after the second `-`. -/
def parseMonth : List Char → Option (List Char × List Char)
  | m1 :: m2 :: rest2 =>
    if month2ok m1 m2 then
      match rest2 with
      | c :: rest3 => if c == '-' then some ([m1, m2], rest3) else none
      | [] => none
    else if isA19 m1 && m2 == '-' then
      some ([m1], rest2)
    else none
  | _ => none

/-- Day step: the pattern ends after `%d` and `strptime` raises unless
the match consumed the whole string, so a two-character remainder must
be matched by a two-character alternative (a one-character match would
leave unconverted data), a one-character remainder only by `[1-9]`, and
any longer remainder fails. -/
def parseDay : List Char → Option (List Char)
  | [d1] => if isA19 d1 then some [d1] else none
  | [d1, d2] => if day2ok d1 d2 then some [d1, d2] else none
  | _ => none

/-- Gregorian leap-year test, as in Python's `calendar`/`datetime`. -/
def isLeap (y : Nat) : Bool :=
  (y % 4 == 0 && y % 100 != 0) || y % 400 == 0

/-- Length of month `m` of year `y` (Python `calendar.monthrange` rule,
used by `datetime` for date validation). -/
def daysInMonth (y m : Nat) : Nat :=
  if m == 2 then (if isLeap y then 29 else 28)
  else if m == 4 || m == 6 || m == 9 || m == 11 then 30
  else 31

/-- Python `datetime(y, m, d)` constructibility: `MINYEAR ≤ y ≤ MAXYEAR`,
a real month, and a day that exists in that month. -/
def validDate (y m d : Nat) : Bool :=
  1 ≤ y && y ≤ 9999 && 1 ≤ m && m ≤ 12 && 1 ≤ d && d ≤ daysInMonth y m

/-- Token-level parse of `datetime.strptime(s, "%Y-%m-%d")`.
CPython compiles the format to the regex
`(\d\d\d\d)\-(1[0-2]|0[1-9]|[1-9])\-(3[0-1]|[1-2]\d|0[1-9]|[1-9]| [1-9])`
(a `str` pattern, so each `\d` is any Unicode decimal digit while the
bracket classes are ASCII), requires the whole string to be consumed,
and converts each captured group with `int()`. -/
def parseYMD (cs : List Char) : Option (Nat × Nat × Nat) :=
  match cs with
  | y1 :: y2 :: y3 :: y4 :: c5 :: rest =>
    if isDig y1 && isDig y2 && isDig y3 && isDig y4 && c5 == '-' then
      match parseMonth rest with
      | some (mt, rest3) =>
        match parseDay rest3 with
        | some dt => some (intOfToken [y1, y2, y3, y4], intOfToken mt, intOfToken dt)
        | none => none
      | none => none
    else none
  | _ => none

/-- Full `datetime.strptime(s, "%Y-%m-%d")`: token parse followed by the
`datetime` constructor's calendar validation; `none` models the raised
`ValueError`. -/
def parseDate (s : String) : Option (Nat × Nat × Nat) :=
  match parseYMD s.data with
  | some (y, m, d) => if validDate y m d then some (y, m, d) else none
  | none => none

/-- `Birthday.validate_birthday` from the source: `strptime` succeeds. -/
def validate_birthday (s : String) : Bool :=
  (parseDate s).isSome

/-- Modelled from the claim text of C9 (spec side, for refutation): a real
calendar date written with a four-digit year and zero-padded two-digit
month and day. -/
def specPaddedDate (s : String) : Bool :=
  match s.data with
  | [y1, y2, y3, y4, '-', m1, m2, '-', d1, d2] =>
      [y1, y2, y3, y4, m1, m2, d1, d2].all isAsciiDig &&
      validDate (digitsVal [y1, y2, y3, y4]) (digitsVal [m1, m2]) (digitsVal [d1, d2])
  | _ => false

/-- Days in all years before year `y` (CPython `datetime._days_before_year`). -/
def daysBeforeYear (y : Nat) : Nat :=
  (y - 1) * 365 + (y - 1) / 4 - (y - 1) / 100 + (y - 1) / 400

/-- Days in year `y` before month `m` (CPython `datetime._days_before_month`). -/
def daysBeforeMonth (y m : Nat) : Nat :=
  ((List.range (m - 1)).map (fun i => daysInMonth y (i + 1))).sum

/-- Proleptic-Gregorian ordinal of a date (Python `date.toordinal`). -/
def toOrdinal (y m d : Nat) : Nat :=
  daysBeforeYear y + daysBeforeMonth y m + d

/-- Python `timedelta.days` of `nextBirthday - today`, where the birthday
is a midnight datetime of ordinal `nbOrd` and today has ordinal `tOrd`
and `tSecs` seconds past midnight: the floored whole-day count. -/
def tdDays (nbOrd tOrd tSecs : Nat) : Int :=
  Int.fdiv ((nbOrd : Int) * 86400 - ((tOrd : Int) * 86400 + (tSecs : Int))) 86400

/-- Result of `Record.days_to_birthday`: the Python method returns either
the string sentinel `"No birthday set"` or an `int`. -/
inductive BdayResult where
  | noBirthday : BdayResult
  | days : Int → BdayResult
deriving DecidableEq

/-- `Record.days_to_birthday` from the source.  `bday` is the record's
`birthday.value` (if any); `datetime.now()` is modelled by the explicit
current date `(ny, nm, nd)` plus `nsecs` seconds past midnight.  The outer
`Option` is `none` when the Python code raises `ValueError` (from
`strptime` or from `datetime.replace` landing on a non-existent date). -/
def days_to_birthday (bday : Option String) (ny nm nd nsecs : Nat) : Option BdayResult :=
  match bday with
  | none => some BdayResult.noBirthday
  | some s =>
    if s = "" then some BdayResult.noBirthday
    else
      match parseDate s with
      | none => none
      | some (_, bm, bd) =>
        if validDate ny bm bd then
          let nb1 := toOrdinal ny bm bd
          let tOrd := toOrdinal ny nm nd
          if tOrd * 86400 + nsecs > nb1 * 86400 then
            if validDate (ny + 1) bm bd then
              some (BdayResult.days (tdDays (toOrdinal (ny + 1) bm bd) tOrd nsecs))
            else none
          else some (BdayResult.days (tdDays nb1 tOrd nsecs))
        else none

/-- A `Phone` field.  Python `Field` objects have no `__eq__`, so two
phones with equal `value` strings are still distinct objects; `oid`
models the Python object identity, and structural equality of this
structure models Python's `is` / default `==`. -/
structure Phone where
  oid : Nat
  value : String
deriving DecidableEq

/-- An `Email` field (only its validated string matters here). -/
structure Email where
  value : String
deriving DecidableEq

/-- A `Record` restricted to the fields the verified operations touch:
`id`, `name.value`, `phones`, `emails`, `birthday.value`. -/
structure Record where
  id : Option Nat
  name : String
  phones : List Phone
  emails : List Email
  birthday : Option String
deriving DecidableEq

/-- Python `list.remove(p)` on a phone list: removes the first element
equal to `p` (identity equality, see `Phone`), `none` models the raised
`ValueError` when `p` is absent. -/
def removeFirst : List Phone → Phone → Option (List Phone)
  | [], _ => none
  | q :: t, p =>
    if q == p then some t
    else (removeFirst t p).map (fun t2 => q :: t2)

/-- `Record.remove_phone` from the source (`none` = raised `ValueError`). -/
def remove_phone (r : Record) (p : Phone) : Option Record :=
  (removeFirst r.phones p).map (fun l => { r with phones := l })

/-- `Record.add_phone` from the source (`list.append`). -/
def add_phone (r : Record) (p : Phone) : Record :=
  { r with phones := r.phones ++ [p] }

/-- `Record.edit_phone` from the source: `remove_phone(old)` then
`add_phone(new)`; if the removal raises, the append never runs. -/
def edit_phone (r : Record) (oldp newp : Phone) : Option Record :=
  (remove_phone r oldp).map (fun r2 => add_phone r2 newp)

/-- Membership test on a list of naturals (Python `in` on the
`free_ids` set). -/
def memB (l : List Nat) (n : Nat) : Bool :=
  l.any (fun j => j == n)

/-- Python `set.add` on `free_ids` (order of the model list is
irrelevant: only membership and the minimum are ever observed). -/
def setInsert (i : Nat) (l : List Nat) : List Nat :=
  if memB l i then l else i :: l

/-- Python `set.remove` on `free_ids` (the source only removes elements
known to be present). -/
def setRemove (i : Nat) (l : List Nat) : List Nat :=
  l.filter (fun j => j != i)

/-- Python `min(free_ids)`: `none` on the empty set (where Python would
raise; the source guards with `if self.free_ids`). -/
def listMin : List Nat → Option Nat
  | [] => none
  | a :: t =>
    match listMin t with
    | none => some a
    | some m => some (if a ≤ m then a else m)

/-- The `AddressBook` state: `data` is the insertion-ordered `dict`
mapping IDs to records, plus the allocator state `next_id` / `free_ids`. -/
structure AddressBook where
  data : List (Nat × Record)
  next_id : Nat
  free_ids : List Nat
deriving DecidableEq

/-- A fresh `AddressBook()` from the source constructor. -/
def emptyBook : AddressBook :=
  { data := [], next_id := 1, free_ids := [] }

/-- Python `key in dict` on the entries. -/
def hasKey (l : List (Nat × Record)) (k : Nat) : Bool :=
  l.any (fun p => p.1 == k)

/-- Python `dict[k] = v`: update in place keeping the position if the key
exists, otherwise append at the end (dicts preserve insertion order). -/
def setKey : List (Nat × Record) → Nat → Record → List (Nat × Record)
  | [], k, v => [(k, v)]
  | (k0, v0) :: t, k, v =>
    if k0 == k then (k, v) :: t else (k0, v0) :: setKey t k v

/-- Python `del dict[k]`. -/
def delKey (l : List (Nat × Record)) (k : Nat) : List (Nat × Record) :=
  l.filter (fun p => p.1 != k)

/-- The loop guard of `add_record`'s while loop: `next_id in self.data or
next_id in self.free_ids`. -/
def reservedB (b : AddressBook) (n : Nat) : Bool :=
  hasKey b.data n || memB b.free_ids n

/-- A strict upper bound on every key and every free ID of `b`; the while
loop of `add_record` can run at most this many times. -/
def bookBound (b : AddressBook) : Nat :=
  (b.data.map Prod.fst ++ b.free_ids).foldr Nat.max 0 + 1

/-- The while loop `while next_id in data or next_id in free_ids:
next_id += 1` of `add_record`, with an explicit iteration budget (any
budget of at least `bookBound b - n` steps gives the loop's result). -/
def advanceFrom (b : AddressBook) : Nat → Nat → Nat
  | 0, n => n
  | fuel + 1, n => if reservedB b n then advanceFrom b fuel (n + 1) else n

/-- Value of `next_id` after `add_record`'s while loop, started at `n`. -/
def advance (b : AddressBook) (n : Nat) : Nat :=
  advanceFrom b (bookBound b) n

/-- `AddressBook.add_record` from the source: run the while loop on
`next_id`; then take the minimum free ID if any exists, else the advanced
`next_id` (incrementing it).  Returns the new state and the assigned ID. -/
def add_record (b : AddressBook) (r : Record) : AddressBook × Nat :=
  match listMin b.free_ids with
  | some i =>
      ({ data := setKey b.data i { r with id := some i },
         next_id := advance b b.next_id,
         free_ids := setRemove i b.free_ids }, i)
  | none =>
      ({ data := setKey b.data (advance b b.next_id) { r with id := some (advance b b.next_id) },
         next_id := advance b b.next_id + 1,
         free_ids := b.free_ids }, advance b b.next_id)

/-- `AddressBook.delete_record_by_id` from the source, with the already
parsed numeric ID: delete the entry and release its ID; an absent ID
leaves the book unchanged (the source just prints a message). -/
def delete_record_by_id (b : AddressBook) (i : Nat) : AddressBook :=
  if hasKey b.data i then
    { data := delKey b.data i,
      next_id := b.next_id,
      free_ids := setInsert i b.free_ids }
  else b

/-- Name condition of `find_record`: `search_term.lower() in
record.name.value.lower()`. -/
def nameMatches (term : String) (r : Record) : Bool :=
  strContains (lowerStr r.name) (lowerStr term)

/-- Phone condition of `find_record`: some phone value contains the raw
search term. -/
def phoneMatches (term : String) (r : Record) : Bool :=
  r.phones.any (fun p => strContains p.value term)

/-- Email condition of `find_record`: some email value contains the raw
search term. -/
def emailMatches (term : String) (r : Record) : Bool :=
  r.emails.any (fun e => strContains e.value term)

/-- Per-record contribution of the `find_record` loop body: a name match
appends once and `continue`s; otherwise the phone loop appends at most
once (it `break`s) and then the email loop independently appends at most
once (it also `break`s, but runs even after a phone hit). -/
def recordHits (term : String) (r : Record) : List Record :=
  if nameMatches term r then [r]
  else (if phoneMatches term r then [r] else []) ++
       (if emailMatches term r then [r] else [])

/-- `AddressBook.find_record` from the source: concatenate the loop-body
contributions over `self.data.values()` in store order. -/
def find_record (b : AddressBook) (term : String) : List Record :=
  ((b.data.map (fun p => recordHits term p.2))).flatten

/-- The claim's per-record occurrence count (spec side): one hit for a
name match, else one per matching field class among phones and emails. -/
def specOccurrences (term : String) (r : Record) : Nat :=
  if nameMatches term r then 1
  else (if phoneMatches term r then 1 else 0) +
       (if emailMatches term r then 1 else 0)

/-- The batching loop of `AddressBook.__next__`: starting at offset
`current`, emit `list(data.values())[current:current+5]` and step by 5
until the offset reaches the length; `fuel` is an explicit iteration
budget (the list length always suffices). -/
def nextBatches (l : List Record) : Nat → Nat → List (List Record)
  | 0, _ => []
  | fuel + 1, current =>
      if current < l.length then
        ((l.drop current).take 5) :: nextBatches l fuel (current + 5)
      else []

/-- A full fresh traversal `iter(book)` / repeated `next(...)` from the
source: `__iter__` resets `current` to 0, `__next__` yields 5-slices. -/
def iterate_batches (b : AddressBook) : List (List Record) :=
  nextBatches (b.data.map (fun p => p.2)) (b.data.map (fun p => p.2)).length 0

/-- `save_address_book` from the source: it pickles exactly `book.data`
(and nothing else); pickling a dict of records is modelled as the
identity on the entry list, which is what a lossless serialization of
`data` observes. -/
def save_address_book (b : AddressBook) : List (Nat × Record) :=
  b.data

/-- `load_address_book` from the source (successful-read path): build a
fresh `AddressBook()` — so `next_id = 1` and `free_ids = ∅` — and
overwrite only its `data` with the unpickled dict. -/
def load_address_book (d : List (Nat × Record)) : AddressBook :=
  { data := d, next_id := 1, free_ids := [] }

/-- Store operations reachable states are built from. -/
inductive AOp where
  | ins : Record → AOp
  | del : Nat → AOp

/-- One interaction step on the store: an insertion or a deletion. -/
def applyOp (b : AddressBook) : AOp → AddressBook
  | AOp.ins r => (add_record b r).1
  | AOp.del i => delete_record_by_id b i

/-- Run a sequence of operations from the fresh empty store. -/
def runOps (ops : List AOp) : AddressBook :=
  ops.foldl applyOp emptyBook

/-- The two store invariants of the claim: every key equals its record's
`id`, and no key is simultaneously a free ID. -/
def storeInvariant (b : AddressBook) : Bool :=
  b.data.all (fun p => p.2.id == some p.1 && !(memB b.free_ids p.1))

/-- A record as built by the interaction layer before insertion. -/
def rcd (n : String) : Record :=
  { id := none, name := n, phones := [], emails := [], birthday := none }

/-- Concrete scenario states: three insertions into a fresh book. -/
def stepA : AddressBook × Nat := add_record emptyBook (rcd "A")

def stepB : AddressBook × Nat := add_record stepA.1 (rcd "B")

def stepC : AddressBook × Nat := add_record stepB.1 (rcd "C")

/-- The book holding records A, B, C under IDs 1, 2, 3. -/
def b3 : AddressBook := stepC.1

/-- `b3` after deleting ID 2. -/
def bC2 : AddressBook := delete_record_by_id b3 2

/-- Inserting a fourth record after the deletion. -/
def stepD : AddressBook × Nat := add_record bC2 (rcd "D")

/-- A store with one record, two released IDs and a high `next_id`. -/
def bW1 : AddressBook :=
  { data := [(1, rcd "A")], next_id := 4, free_ids := [2, 3] }

/-- A store with one record, no released IDs and a low `next_id`. -/
def bW2 : AddressBook :=
  { data := [(1, rcd "A")], next_id := 1, free_ids := [] }

/-- The store obtained by saving `b3` and loading it back: its entries
still occupy IDs 1..3 while the allocator was reset. -/
def bW10 : AddressBook :=
  load_address_book (save_address_book b3)

/-- A phone used by the search counterexample. -/
def pC3 : Phone := { oid := 10, value := "123456789" }

/-- An email used by the search counterexample. -/
def eC3 : Email := { value := "1@a.b" }

/-- A record whose phone and email both contain the digit 1 while its
name does not. -/
def rC3 : Record :=
  { id := some 1, name := "X", phones := [pC3], emails := [eC3], birthday := none }

/-- A store holding only `rC3`. -/
def bC3 : AddressBook :=
  { data := [(1, rC3)], next_id := 2, free_ids := [] }

/-- A phone object stored in a record. -/
def pIdA : Phone := { oid := 0, value := "123456789" }

/-- A distinct phone object carrying the same validated string. -/
def pIdB : Phone := { oid := 1, value := "123456789" }

/-- A record holding the phone object `pIdA`. -/
def rC6 : Record :=
  { id := some 1, name := "A", phones := [pIdA], emails := [], birthday := none }

/-- The `i`-th record of the twelve-record iteration example. -/
def rec12 (i : Nat) : Record :=
  { id := some (i + 1), name := "N", phones := [], emails := [], birthday := none }

/-- A store holding twelve records under IDs 1..12. -/
def book12 : AddressBook :=
  { data := (List.range 12).map (fun i => (i + 1, rec12 i)),
    next_id := 13, free_ids := [] }


/-! ### Helper lemmas about the free-ID set and the allocation loop -/

theorem memB_iff {l : List Nat} {n : Nat} : memB l n = true ↔ n ∈ l := by
  simp [memB, List.any_eq_true]

theorem listMin_eq_none {l : List Nat} : listMin l = none ↔ l = [] := by
  cases l with
  | nil => simp [listMin]
  | cons a t =>
    simp only [listMin]
    cases h : listMin t <;> simp

theorem listMin_mem {l : List Nat} : ∀ {m : Nat}, listMin l = some m → m ∈ l := by
  induction l with
  | nil => intro m h; simp [listMin] at h
  | cons a t ih =>
    intro m h
    simp only [listMin] at h
    cases ht : listMin t with
    | none =>
      rw [ht] at h
      simp only [Option.some.injEq] at h
      subst h
      exact List.mem_cons_self a t
    | some m0 =>
      rw [ht] at h
      simp only [Option.some.injEq] at h
      by_cases hle : a ≤ m0
      · rw [if_pos hle] at h
        subst h
        exact List.mem_cons_self a t
      · rw [if_neg hle] at h
        subst h
        exact List.mem_cons_of_mem a (ih ht)

theorem listMin_le {l : List Nat} : ∀ {m : Nat}, listMin l = some m → ∀ x ∈ l, m ≤ x := by
  induction l with
  | nil => intro m h; simp [listMin] at h
  | cons a t ih =>
    intro m h x hx
    simp only [listMin] at h
    cases ht : listMin t with
    | none =>
      rw [ht] at h
      simp only [Option.some.injEq] at h
      have htn : t = [] := listMin_eq_none.mp ht
      subst htn
      simp at hx
      omega
    | some m0 =>
      rw [ht] at h
      simp only [Option.some.injEq] at h
      by_cases hle : a ≤ m0
      · rw [if_pos hle] at h
        rcases List.mem_cons.mp hx with rfl | hxt
        · omega
        · have := ih ht x hxt
          omega
      · rw [if_neg hle] at h
        rcases List.mem_cons.mp hx with rfl | hxt
        · omega
        · have := ih ht x hxt
          omega

theorem mem_le_foldr_max {l : List Nat} {a : Nat} (h : a ∈ l) (init : Nat) :
    a ≤ l.foldr Nat.max init := by
  induction l with
  | nil => cases h
  | cons b t ih =>
    rcases List.mem_cons.mp h with rfl | ht
    · exact Nat.le_max_left _ _
    · exact Nat.le_trans (ih ht) (Nat.le_max_right _ _)

theorem reserved_lt_bound {b : AddressBook} {n : Nat}
    (h : reservedB b n = true) : n < bookBound b := by
  unfold reservedB at h
  unfold bookBound
  rw [Bool.or_eq_true] at h
  have hmem : n ∈ b.data.map Prod.fst ++ b.free_ids := by
    rcases h with hk | hf
    · apply List.mem_append_left
      unfold hasKey at hk
      rcases List.any_eq_true.mp hk with ⟨p, hp, hpn⟩
      simp at hpn
      exact hpn ▸ List.mem_map_of_mem Prod.fst hp
    · exact List.mem_append_right _ (memB_iff.mp hf)
  have := mem_le_foldr_max hmem 0
  omega

theorem advanceFrom_ge (b : AddressBook) :
    ∀ (fuel n : Nat), n ≤ advanceFrom b fuel n := by
  intro fuel
  induction fuel with
  | zero => intro n; simp [advanceFrom]
  | succ f ih =>
    intro n
    simp only [advanceFrom]
    split
    · exact Nat.le_trans (Nat.le_succ n) (ih (n + 1))
    · exact Nat.le_refl n

theorem advanceFrom_not_reserved (b : AddressBook) :
    ∀ (fuel n : Nat), bookBound b ≤ fuel + n →
      reservedB b (advanceFrom b fuel n) = false := by
  intro fuel
  induction fuel with
  | zero =>
    intro n h
    simp only [advanceFrom]
    cases hr : reservedB b n with
    | false => rfl
    | true => exact absurd (reserved_lt_bound hr) (by omega)
  | succ f ih =>
    intro n h
    simp only [advanceFrom]
    split
    · exact ih (n + 1) (by omega)
    · rename_i hr
      exact Bool.eq_false_iff.mpr hr

theorem advanceFrom_min (b : AddressBook) :
    ∀ (fuel n k : Nat), n ≤ k → k < advanceFrom b fuel n →
      reservedB b k = true := by
  intro fuel
  induction fuel with
  | zero =>
    intro n k h1 h2
    simp only [advanceFrom] at h2
    omega
  | succ f ih =>
    intro n k h1 h2
    simp only [advanceFrom] at h2
    split at h2
    · rename_i hr
      rcases Nat.eq_or_lt_of_le h1 with rfl | hlt
      · exact hr
      · exact ih (n + 1) k hlt h2
    · omega

theorem advance_ge (b : AddressBook) (n : Nat) : n ≤ advance b n :=
  advanceFrom_ge b (bookBound b) n

theorem advance_not_reserved (b : AddressBook) (n : Nat) :
    reservedB b (advance b n) = false :=
  advanceFrom_not_reserved b (bookBound b) n (Nat.le_add_right _ n)

theorem advance_min (b : AddressBook) {n k : Nat} (h1 : n ≤ k)
    (h2 : k < advance b n) : reservedB b k = true :=
  advanceFrom_min b (bookBound b) n k h1 h2

/-! ### Helper lemmas about the entry map and free-ID set updates -/

theorem setKey_append {l : List (Nat × Record)} {k : Nat} (v : Record)
    (h : hasKey l k = false) : setKey l k v = l ++ [(k, v)] := by
  induction l with
  | nil => rfl
  | cons p t ih =>
    simp only [hasKey, List.any_cons, Bool.or_eq_false_iff] at h
    simp only [setKey]
    rw [if_neg (by simp_all)]
    rw [ih]
    · simp
    · unfold hasKey
      exact h.2

theorem mem_setKey {l : List (Nat × Record)} {k : Nat} {v : Record}
    {p : Nat × Record} (h : p ∈ setKey l k v) : p = (k, v) ∨ p ∈ l := by
  induction l with
  | nil =>
    simp [setKey] at h
    left
    exact h
  | cons q t ih =>
    simp only [setKey] at h
    split at h
    · rcases List.mem_cons.mp h with rfl | hp
      · left; rfl
      · right; exact List.mem_cons_of_mem q hp
    · rcases List.mem_cons.mp h with rfl | hp
      · right; exact List.mem_cons_self q t
      · rcases ih hp with hkv | hq
        · left; exact hkv
        · right; exact List.mem_cons_of_mem q hq

theorem mem_delKey {l : List (Nat × Record)} {i : Nat} {p : Nat × Record}
    (h : p ∈ delKey l i) : p ∈ l ∧ p.1 ≠ i := by
  unfold delKey at h
  have := List.mem_filter.mp h
  refine ⟨this.1, ?_⟩
  have hb := this.2
  simp at hb
  exact hb

theorem memB_setRemove_mono {l : List Nat} {m x : Nat}
    (h : memB l x = false) : memB (setRemove m l) x = false := by
  cases hr : memB (setRemove m l) x with
  | false => rfl
  | true =>
    exfalso
    have hx := memB_iff.mp hr
    unfold setRemove at hx
    have := (List.mem_filter.mp hx).1
    rw [← memB_iff] at this
    rw [h] at this
    exact Bool.noConfusion this

theorem memB_setRemove_self {l : List Nat} {m : Nat} :
    memB (setRemove m l) m = false := by
  cases hr : memB (setRemove m l) m with
  | false => rfl
  | true =>
    exfalso
    have hx := memB_iff.mp hr
    unfold setRemove at hx
    have := (List.mem_filter.mp hx).2
    simp at this

theorem memB_setInsert {l : List Nat} {i x : Nat}
    (hx : memB l x = false) (hne : x ≠ i) :
    memB (setInsert i l) x = false := by
  unfold setInsert
  split
  · exact hx
  · cases hr : memB (i :: l) x with
    | false => rfl
    | true =>
      exfalso
      have := memB_iff.mp hr
      rcases List.mem_cons.mp this with rfl | hmem
      · exact hne rfl
      · rw [← memB_iff] at hmem
        rw [hx] at hmem
        exact Bool.noConfusion hmem

theorem storeInvariant_iff {b : AddressBook} :
    storeInvariant b = true ↔
      ∀ p ∈ b.data, p.2.id = some p.1 ∧ memB b.free_ids p.1 = false := by
  unfold storeInvariant
  rw [List.all_eq_true]
  constructor
  · intro h p hp
    have := h p hp
    rw [Bool.and_eq_true] at this
    exact ⟨by simpa using this.1, by simpa using this.2⟩
  · intro h p hp
    rw [Bool.and_eq_true]
    exact ⟨by simp [(h p hp).1], by simp [(h p hp).2]⟩

theorem applyOp_inv {b : AddressBook} (hb : storeInvariant b = true)
    (op : AOp) : storeInvariant (applyOp b op) = true := by
  rw [storeInvariant_iff] at hb ⊢
  cases op with
  | ins r =>
    cases hm : listMin b.free_ids with
    | some m =>
      have hX : applyOp b (AOp.ins r) =
          { data := setKey b.data m { r with id := some m },
            next_id := advance b b.next_id,
            free_ids := setRemove m b.free_ids } := by
        simp [applyOp, add_record, hm]
      rw [hX]
      intro p hp
      rcases mem_setKey hp with rfl | hold
      · exact ⟨rfl, memB_setRemove_self⟩
      · exact ⟨(hb p hold).1, memB_setRemove_mono (hb p hold).2⟩
    | none =>
      have hfree : b.free_ids = [] := listMin_eq_none.mp hm
      have hX : applyOp b (AOp.ins r) =
          { data := setKey b.data (advance b b.next_id)
              { r with id := some (advance b b.next_id) },
            next_id := advance b b.next_id + 1,
            free_ids := b.free_ids } := by
        simp [applyOp, add_record, hm]
      rw [hX]
      intro p hp
      rcases mem_setKey hp with rfl | hold
      · exact ⟨rfl, by rw [hfree]; rfl⟩
      · exact ⟨(hb p hold).1, (hb p hold).2⟩
  | del i =>
    simp only [applyOp, delete_record_by_id]
    split
    · intro p hp
      have hmem := mem_delKey hp
      exact ⟨(hb p hmem.1).1, memB_setInsert (hb p hmem.1).2 hmem.2⟩
    · exact hb

theorem runOps_inv_aux : ∀ (ops : List AOp) (b : AddressBook),
    storeInvariant b = true → storeInvariant (ops.foldl applyOp b) = true := by
  intro ops
  induction ops with
  | nil => intro b hb; exact hb
  | cons op t ih =>
    intro b hb
    simp only [List.foldl_cons]
    exact ih _ (applyOp_inv hb op)

/-- C7: in every store state reachable from the fresh empty store by any
sequence of insertions and deletions, every key of `entries` equals the
`id` stored in its record, and `free_ids` is disjoint from the keys of
`entries`. -/
theorem C7_store_invariants (ops : List AOp) :
    storeInvariant (runOps ops) = true := by
  unfold runOps
  exact runOps_inv_aux ops emptyBook (by decide)

/-- C1: `add_record` assigns the minimum of `free_ids` (removing it) when
`free_ids` is non-empty; otherwise it assigns the value of `next_id` after
the while loop, which is the least value at or above the incoming
`next_id` that is neither a key of `entries` nor a member of `free_ids`
(every skipped value was reserved by one of the two sets).  Concretely,
three insertions into a fresh store receive IDs 1, 2, 3, and after
deleting ID 2 the next insertion receives ID 2, not 4. -/
theorem C1_insert_id_allocation (b : AddressBook) (r : Record) :
    (∀ m : Nat, listMin b.free_ids = some m →
      (add_record b r).2 = m ∧ m ∈ b.free_ids ∧ (∀ x ∈ b.free_ids, m ≤ x) ∧
      (add_record b r).1.free_ids = setRemove m b.free_ids) ∧
    (b.free_ids = [] →
      (add_record b r).2 = advance b b.next_id ∧
      b.next_id ≤ (add_record b r).2 ∧
      reservedB b ((add_record b r).2) = false ∧
      (∀ k : Nat, b.next_id ≤ k → k < (add_record b r).2 → reservedB b k = true)) ∧
    (stepA.2 = 1 ∧ stepB.2 = 2 ∧ stepC.2 = 3 ∧ stepD.2 = 2) := by
  refine ⟨?_, ?_, by decide⟩
  · intro m hm
    simp only [add_record, hm]
    exact ⟨trivial, listMin_mem hm, listMin_le hm, trivial⟩
  · intro hfree
    have hm : listMin b.free_ids = none := by rw [hfree]; rfl
    simp only [add_record, hm]
    exact ⟨trivial, advance_ge b _, advance_not_reserved b _,
      fun k h1 h2 => advance_min b h1 h2⟩

/-- Witness for C1: on a store with `free_ids = [2, 3]` the insertion
assigns 2 and removes it from the free set; on a store with no free IDs
the insertion assigns the advanced `next_id`, which is unreserved. -/
theorem C1_insert_id_allocation_witness :
    (add_record bW1 (rcd "Z")).2 = 2 ∧
    (add_record bW1 (rcd "Z")).1.free_ids = setRemove 2 bW1.free_ids ∧
    (add_record bW2 (rcd "Z")).2 = advance bW2 bW2.next_id ∧
    reservedB bW2 ((add_record bW2 (rcd "Z")).2) = false := by
  have h1 := (C1_insert_id_allocation bW1 (rcd "Z")).1 2 (by decide)
  have h2 := (C1_insert_id_allocation bW2 (rcd "Z")).2.1 (by decide)
  exact ⟨h1.1, h1.2.2.2, h2.1, h2.2.2.1⟩

/-- C10: on any store whose `free_ids` is empty — in particular the state
produced by `load_address_book`, which keeps the loaded entries but resets
`next_id` to 1 and `free_ids` to empty — `add_record` never assigns an ID
that is already a key of `entries`, because the while loop first advances
`next_id` past every occupied key; the new entry is appended and no
existing entry is overwritten. -/
theorem C10_load_then_insert_safe (b : AddressBook) (r : Record)
    (h : b.free_ids = []) :
    hasKey b.data ((add_record b r).2) = false ∧
    (add_record b r).1.data =
      b.data ++ [((add_record b r).2, { r with id := some ((add_record b r).2) })] := by
  have hm : listMin b.free_ids = none := by rw [h]; rfl
  simp only [add_record, hm]
  have hres := advance_not_reserved b b.next_id
  unfold reservedB at hres
  rw [Bool.or_eq_false_iff] at hres
  exact ⟨hres.1, setKey_append _ hres.1⟩

/-- Witness for C10: loading the saved three-record store gives entries
under IDs 1..3 with `next_id = 1`; the next insertion lands on ID 4,
which is fresh, and the store is extended, not overwritten. -/
theorem C10_load_then_insert_safe_witness :
    hasKey bW10.data ((add_record bW10 (rcd "D")).2) = false ∧
    (add_record bW10 (rcd "D")).1.data =
      bW10.data ++ [((add_record bW10 (rcd "D")).2,
        { (rcd "D") with id := some ((add_record bW10 (rcd "D")).2) })] :=
  C10_load_then_insert_safe bW10 (rcd "D") (by decide)

/-- C2 counterexample: saving the store that holds records under IDs 1 and
3 with `free_ids = {2}` and `next_id = 4`, then loading it, yields a store
whose `free_ids` is empty and whose `next_id` is 1 — the allocator state
is not reproduced. -/
theorem C2_roundtrip_counterexample :
    ¬ ((load_address_book (save_address_book bC2)).free_ids = bC2.free_ids ∧
       (load_address_book (save_address_book bC2)).next_id = bC2.next_id) := by
  decide

/-- C2 (amended): save followed by load reproduces the entries exactly
(same IDs, same order, same field values) but resets the allocator:
`free_ids` becomes empty and `next_id` becomes 1.  Nevertheless, after
deleting ID 2 from the three-record store, saving and loading, the next
insertion still receives ID 2, because the allocation loop scans upward
past the occupied keys 1 and 3. -/
theorem C2_roundtrip_amended (b : AddressBook) :
    (load_address_book (save_address_book b)).data = b.data ∧
    (load_address_book (save_address_book b)).free_ids = [] ∧
    (load_address_book (save_address_book b)).next_id = 1 ∧
    (add_record (load_address_book (save_address_book bC2)) (rcd "D")).2 = 2 :=
  ⟨rfl, rfl, rfl, by decide⟩

theorem recordHits_eq (term : String) (r : Record) :
    recordHits term r = List.replicate (specOccurrences term r) r := by
  unfold recordHits specOccurrences
  cases h1 : nameMatches term r <;> cases h2 : phoneMatches term r <;>
    cases h3 : emailMatches term r <;> simp [List.replicate]

/-- C3 counterexample: the record `rC3` (name "X", phone "123456789",
email "1@a.b") matches the search term "1" on both a phone and an email
but not on the name, and `find_record` returns it twice, not at most
once. -/
theorem C3_find_counterexample :
    ¬ ((find_record bC3 "1").count rC3 ≤ 1) := by
  decide

/-- C3 (amended): `find_record` returns, in store iteration order, one
occurrence of each record whose name matches case-insensitively; for a
record whose name does not match, it returns one occurrence if some phone
contains the raw term, plus one further occurrence if some email contains
the raw term — so a record matching on both a phone and an email (and not
the name) appears twice. -/
theorem C3_find_record_amended (b : AddressBook) (term : String) :
    find_record b term =
      ((b.data.map (fun p => p.2)).map
        (fun r => List.replicate (specOccurrences term r) r)).flatten := by
  unfold find_record
  rw [List.map_map]
  congr 1
  apply List.map_congr_left
  intro p _
  exact recordHits_eq term p.2

theorem removeFirst_eq_none {l : List Phone} {p : Phone} :
    removeFirst l p = none ↔ l.any (fun q => q == p) = false := by
  induction l with
  | nil => simp [removeFirst]
  | cons q t ih =>
    simp only [removeFirst, List.any_cons]
    split
    · rename_i h
      simp [h]
    · rename_i h
      have hq : (q == p) = false := Bool.eq_false_iff.mpr h
      rw [hq]
      cases hr : removeFirst t p with
      | none =>
        simp only [hr, Option.map_none', Bool.false_or]
        constructor
        · intro _; exact ih.mp hr
        · intro _; trivial
      | some t2 =>
        simp only [hr, Option.map_some', Bool.false_or]
        constructor
        · intro hcontra; exact Option.noConfusion hcontra
        · intro hany
          have := ih.mpr hany
          rw [hr] at this
          exact Option.noConfusion this

theorem remove_phone_eq_none {r : Record} {p : Phone} :
    remove_phone r p = none ↔ r.phones.any (fun q => q == p) = false := by
  rw [← removeFirst_eq_none]
  unfold remove_phone
  cases hr : removeFirst r.phones p <;> simp [hr]

/-- C6 counterexample: the record `rC6` stores the phone object `pIdA`
with value "123456789"; removing or editing via the distinct object
`pIdB` carrying the same validated string fails (Python `list.remove`
compares by object identity, since `Field` defines no `__eq__`), even
though a value-equal phone is present. -/
theorem C6_identity_counterexample :
    remove_phone rC6 pIdB = none ∧
    edit_phone rC6 pIdB pIdB = none ∧
    rC6.phones.any (fun q => q.value == pIdB.value) = true := by
  decide

/-- C6 (amended): `remove_phone`/`edit_phone` fail exactly when the given
phone object itself (identity equality, not value equality) is absent
from the record's phone list; a failed edit raises before the append runs,
so the caller's record is untouched. -/
theorem C6_remove_edit_phone_amended (r : Record) (oldp newp : Phone) :
    (remove_phone r oldp = none ↔ r.phones.any (fun q => q == oldp) = false) ∧
    (edit_phone r oldp newp = none ↔ r.phones.any (fun q => q == oldp) = false) := by
  refine ⟨remove_phone_eq_none, ?_⟩
  rw [← remove_phone_eq_none]
  unfold edit_phone
  cases hr : remove_phone r oldp <;> simp [hr]

/-- C4: evaluation of `days_to_birthday` at the failing input — birthday
`2000-06-15`, current instant 2024-06-15 10:00:00 — returns 364, not the
0 the claim requires: `datetime.now()` at 10:00 exceeds the midnight
datetime of this year's birthday, so the code jumps to next year and the
`timedelta` flooring then subtracts the time of day. -/
theorem C4_days_to_birthday_time_of_day :
    days_to_birthday (some "2000-06-15") 2024 6 15 36000 =
      some (BdayResult.days 364) := by
  decide

/-- C5: the birthday string `2020-02-29` is accepted by the validator
(2020 is a leap year), yet `days_to_birthday` in the non-leap year 2021
raises `ValueError` (modelled as `none`) because
`bday.replace(year=2021)` lands on the non-existent date 2021-02-29. -/
theorem C5_feb29_raises :
    validate_birthday "2020-02-29" = true ∧
    days_to_birthday (some "2020-02-29") 2021 6 1 0 = none := by
  decide

theorem nextBatches_flatten (l : List Record) :
    ∀ (fuel c : Nat), l.length ≤ c + fuel →
      (nextBatches l fuel c).flatten = l.drop c := by
  intro fuel
  induction fuel with
  | zero =>
    intro c h
    simp only [nextBatches, List.flatten_nil]
    exact (List.drop_eq_nil_of_le h).symm
  | succ f ih =>
    intro c h
    simp only [nextBatches]
    split
    · rename_i hc
      rw [List.flatten_cons, ih (c + 5) (by omega)]
      have hdd : l.drop (c + 5) = (l.drop c).drop 5 := by
        rw [List.drop_drop, Nat.add_comm]
      rw [hdd]
      exact List.take_append_drop 5 (l.drop c)
    · rename_i hc
      simp only [List.flatten_nil]
      exact (List.drop_eq_nil_of_le (by omega)).symm

theorem nextBatches_le5 (l : List Record) :
    ∀ (fuel c : Nat),
      ((nextBatches l fuel c).all (fun batch => decide (batch.length ≤ 5))) = true := by
  intro fuel
  induction fuel with
  | zero => intro c; simp [nextBatches]
  | succ f ih =>
    intro c
    simp only [nextBatches]
    split
    · rw [List.all_cons]
      rw [ih (c + 5)]
      simp [List.length_take]
    · simp

theorem nextBatches_eq_nil {l : List Record} {fuel c : Nat}
    (h : l.length ≤ c) : nextBatches l fuel c = [] := by
  cases fuel with
  | zero => rfl
  | succ f =>
    simp only [nextBatches]
    rw [if_neg (by omega)]

theorem nextBatches_dropLast (l : List Record) :
    ∀ (fuel c : Nat), l.length ≤ c + fuel →
      ((nextBatches l fuel c).dropLast.all (fun batch => batch.length == 5)) = true := by
  intro fuel
  induction fuel with
  | zero => intro c h; simp [nextBatches]
  | succ f ih =>
    intro c h
    simp only [nextBatches]
    split
    · rename_i hc
      cases ht : nextBatches l f (c + 5) with
      | nil => simp
      | cons y t2 =>
        have h5 : c + 5 < l.length := by
          by_contra hcon
          rw [nextBatches_eq_nil (by omega)] at ht
          exact List.noConfusion ht
        have hlen : ((l.drop c).take 5).length = 5 := by
          rw [List.length_take, List.length_drop]
          omega
        have htail := ih (c + 5) (by omega)
        rw [ht] at htail
        rw [List.dropLast_cons_of_ne_nil (List.cons_ne_nil y t2)]
        rw [List.all_cons, htail]
        simp [hlen]
    · simp

/-- C8: a fresh batched traversal yields slices of at most five records,
drawn in the store's current iteration order; their concatenation is
exactly the record list (every record exactly once), every batch except
possibly the last has exactly five records, and over a twelve-record
store the batch sizes are [5, 5, 2]. -/
theorem C8_batched_iteration (b : AddressBook) :
    (iterate_batches b).flatten = b.data.map (fun p => p.2) ∧
    ((iterate_batches b).all (fun batch => decide (batch.length ≤ 5))) = true ∧
    ((iterate_batches b).dropLast.all (fun batch => batch.length == 5)) = true ∧
    (iterate_batches book12).map List.length = [5, 5, 2] := by
  refine ⟨?_, ?_, ?_, by decide⟩
  · unfold iterate_batches
    rw [nextBatches_flatten _ _ 0 (by omega)]
    rfl
  · exact nextBatches_le5 _ _ 0
  · exact nextBatches_dropLast _ _ 0 (by omega)

/-- C9 counterexample: `strptime("%Y-%m-%d")` accepts the non-zero-padded
string "2020-2-9" (CPython's `%m`/`%d` regexes allow one-digit tokens),
so Birthday construction succeeds on a string that is not in zero-padded
`YYYY-MM-DD` form, contradicting the claim's characterisation. -/
theorem C9_counterexample :
    validate_birthday "2020-2-9" = true ∧ specPaddedDate "2020-2-9" = false := by
  decide

theorem month2ok_dash (m1 : Char) : month2ok m1 '-' = false := by
  have h1 : (48 ≤ ('-').toNat && ('-').toNat ≤ 50) = false := by decide
  have h2 : isA19 '-' = false := by decide
  simp [month2ok, h1, h2]

theorem parseMonth_sound {rest mt rest3 : List Char}
    (h : parseMonth rest = some (mt, rest3)) :
    rest = mt ++ '-' :: rest3 ∧ monthTok mt = true := by
  rcases rest with _ | ⟨m1, _ | ⟨m2, rest2⟩⟩
  · simp [parseMonth] at h
  · simp [parseMonth] at h
  · rcases rest2 with _ | ⟨c, rest3c⟩
    · simp only [parseMonth] at h
      split at h
      · exact absurd h (by simp)
      · split at h
        · rename_i hfb
          rw [Bool.and_eq_true] at hfb
          have hm2 : m2 = '-' := by simpa using hfb.2
          simp only [Option.some.injEq, Prod.mk.injEq] at h
          obtain ⟨hmt, hr3⟩ := h
          subst hmt
          subst hr3
          subst hm2
          exact ⟨by simp, by simpa [monthTok] using hfb.1⟩
        · exact absurd h (by simp)
    · simp only [parseMonth] at h
      split at h
      · rename_i hok
        split at h
        · rename_i hc
          have hcdash : c = '-' := by simpa using hc
          simp only [Option.some.injEq, Prod.mk.injEq] at h
          obtain ⟨hmt, hr3⟩ := h
          subst hmt
          subst hr3
          subst hcdash
          exact ⟨by simp, by simpa [monthTok] using hok⟩
        · exact absurd h (by simp)
      · split at h
        · rename_i hfb
          rw [Bool.and_eq_true] at hfb
          have hm2 : m2 = '-' := by simpa using hfb.2
          simp only [Option.some.injEq, Prod.mk.injEq] at h
          obtain ⟨hmt, hr3⟩ := h
          subst hmt
          subst hr3
          subst hm2
          exact ⟨by simp, by simpa [monthTok] using hfb.1⟩
        · exact absurd h (by simp)

theorem parseMonth_complete {mt rest3 : List Char} (h : monthTok mt = true) :
    parseMonth (mt ++ '-' :: rest3) = some (mt, rest3) := by
  rcases mt with _ | ⟨m1, _ | ⟨m2, _ | ⟨m3, t2⟩⟩⟩
  · simp [monthTok] at h
  · simp only [monthTok] at h
    simp only [List.cons_append, List.nil_append, parseMonth]
    rw [if_neg (by rw [month2ok_dash]; exact Bool.false_ne_true)]
    rw [if_pos (by simp [h])]
  · simp only [monthTok] at h
    simp only [List.cons_append, List.nil_append, parseMonth]
    rw [if_pos h]
    simp
  · simp [monthTok] at h

theorem parseDay_eq (ds : List Char) :
    parseDay ds = if dayTok ds = true then some ds else none := by
  rcases ds with _ | ⟨d1, _ | ⟨d2, _ | ⟨d3, t⟩⟩⟩ <;> simp [parseDay, dayTok]

/-- C9 (amended): Birthday construction succeeds iff the string splits
as `year-month-day` where the year is exactly four Unicode decimal
digits, the month token is matched in full by the ASCII pattern
`1[0-2]|0[1-9]|[1-9]` (one or two ASCII digits denoting 1..12, zero
padding optional), the day token is matched in full by
`3[0-1]|[1-2]\d|0[1-9]|[1-9]| [1-9]` (where the digit after an ASCII
`1` or `2` may be any Unicode decimal digit, and a space-padded single
digit is allowed), and the values the tokens denote form a real calendar
date with year at least 1. -/
theorem C9_birthday_validation_amended (s : String) :
    validate_birthday s = true ↔
      ∃ ys ms ds : List Char,
        s.data = ys ++ '-' :: (ms ++ '-' :: ds) ∧
        ys.length = 4 ∧ ys.all isDig = true ∧
        monthTok ms = true ∧ dayTok ds = true ∧
        validDate (intOfToken ys) (intOfToken ms) (intOfToken ds) = true := by
  constructor
  · intro h
    unfold validate_birthday parseDate at h
    cases hp : parseYMD s.data with
    | none => rw [hp] at h; simp at h
    | some ymd =>
      obtain ⟨y, m, d⟩ := ymd
      rw [hp] at h
      by_cases hv : validDate y m d = true
      case neg => simp [hv] at h
      case pos =>
      clear h
      unfold parseYMD at hp
      split at hp
      case h_2 => exact absurd hp (by simp)
      case h_1 y1 y2 y3 y4 c5 rest heq =>
      split at hp
      case isFalse => exact absurd hp (by simp)
      case isTrue hcond =>
      cases heqM : parseMonth rest with
      | none => rw [heqM] at hp; simp at hp
      | some p =>
        obtain ⟨mt, rest3⟩ := p
        cases heqD : parseDay rest3 with
        | none =>
          rw [heqM] at hp
          simp [heqD] at hp
        | some dt =>
          rw [heqM] at hp
          simp only [heqD, Option.some.injEq, Prod.mk.injEq] at hp
          obtain ⟨hpy, hpm, hpd⟩ := hp
          simp only [Bool.and_eq_true, beq_iff_eq] at hcond
          obtain ⟨⟨⟨⟨hy1, hy2⟩, hy3⟩, hy4⟩, hc5⟩ := hcond
          have hM := parseMonth_sound heqM
          have hD := parseDay_eq rest3
          rw [heqD] at hD
          by_cases hdt : dayTok rest3 = true
          case neg => rw [if_neg hdt] at hD; exact absurd hD (by simp)
          case pos =>
          rw [if_pos hdt] at hD
          have hdr : dt = rest3 := by simpa using hD
          refine ⟨[y1, y2, y3, y4], mt, rest3, ?_, rfl, ?_, hM.2, hdt, ?_⟩
          · rw [heq, hc5, hM.1]
            simp
          · simp [List.all_cons, hy1, hy2, hy3, hy4]
          · rw [hpy, hpm, ← hdr, hpd]
            exact hv
  · rintro ⟨ys, ms, ds, hs, hylen, hyall, hmt, hdt, hvd⟩
    have hys : ∃ a b c d, ys = [a, b, c, d] := by
      rcases ys with _ | ⟨a, t1⟩
      · simp at hylen
      rcases t1 with _ | ⟨b, t2⟩
      · simp at hylen
      rcases t2 with _ | ⟨c, t3⟩
      · simp at hylen
      rcases t3 with _ | ⟨d, t4⟩
      · simp at hylen
      rcases t4 with _ | ⟨e, t5⟩
      · exact ⟨a, b, c, d, rfl⟩
      · simp at hylen
    obtain ⟨y1, y2, y3, y4, rfl⟩ := hys
    simp only [List.all_cons, List.all_nil, Bool.and_eq_true] at hyall
    have hP : parseYMD s.data =
        some (intOfToken [y1, y2, y3, y4], intOfToken ms, intOfToken ds) := by
      rw [hs]
      simp only [List.cons_append, List.nil_append, parseYMD]
      rw [if_pos (by simp [hyall.1, hyall.2.1, hyall.2.2.1, hyall.2.2.2.1])]
      rw [parseMonth_complete hmt]
      simp [parseDay_eq ds, hdt]
    unfold validate_birthday parseDate
    rw [hP]
    simp [hvd]
